import Mathlib

/-!
Verification of the streak-detection and row-alignment engine of the
TronHashOddandEvenSize repository (`src/components/DragonList.tsx`,
`src/types.ts`, `src/services/dragonStatsApi.ts`).

The TypeScript code is shallowly embedded: JavaScript numbers are `Nat`
(block heights, intervals and offsets are nonnegative integers in this
program) except where a subtraction can go negative, where `Int` with
JavaScript floor-division (`Int.fdiv`, for `Math.floor(a / b)`) and
truncated remainder (`Int.tmod`, for the JS `%` operator) is used.
JavaScript `x || default` on optional numeric fields is modelled by
`jsOr : Option Nat → Nat → Nat` (both `undefined` and `0` are falsy).
The stable `Array.prototype.sort` is modelled by stable insertion sorts.
-/

namespace TronDragon

/-- `BlockType` from `src/types.ts`: parity class of a block. -/
inductive BlockType where
  | ODD
  | EVEN
deriving DecidableEq, Repr

/-- `SizeType` from `src/types.ts`: size class of a block. -/
inductive SizeType where
  | BIG
  | SMALL
deriving DecidableEq, Repr

/-- `BlockData` from `src/types.ts`. -/
structure BlockData where
  height : Nat
  hash : String
  resultValue : Nat
  type : BlockType
  sizeType : SizeType
  timestamp : String
deriving DecidableEq, Repr

/-- `IntervalRule` from `src/types.ts`.  `value` is the sampling interval.
`startBlock` and `beadRows` are declared as required numbers in `types.ts`,
but `DragonList.tsx` reads them defensively as `rule.startBlock || 0` and
`rule.beadRows || 6`, so they are modelled as `Option Nat` (a `none` models
a runtime `undefined`).  `dragonThreshold` is NOT declared on `IntervalRule`
in `types.ts` at all, yet `DragonList.tsx` reads `rule.dragonThreshold || 3`;
it is modelled as `Option Nat`, and a rule that is well typed with respect to
`types.ts` has `dragonThreshold = none`. -/
structure IntervalRule where
  id : String
  label : String
  value : Nat
  startBlock : Option Nat
  trendRows : Nat
  beadRows : Option Nat
  dragonThreshold : Option Nat
deriving DecidableEq, Repr

/-- A rule is well typed with respect to the `IntervalRule` interface of
`src/types.ts` exactly when it carries no `dragonThreshold` field (the
interface declares `id`, `label`, `value`, `startBlock`, `trendRows`,
`beadRows` and nothing else). -/
def IntervalRule.declaredFieldsOnly (r : IntervalRule) : Prop :=
  r.dragonThreshold = none

/-- JavaScript `x || d` for an optional numeric field: `undefined` and `0`
are falsy, any other natural number is truthy. -/
def jsOr : Option Nat → Nat → Nat
  | none, d => d
  | some 0, d => d
  | some (n + 1), _ => n + 1

/-- `const epoch = rule.startBlock || 0;` (DragonList.tsx line 60). -/
def epochOf (r : IntervalRule) : Nat := jsOr r.startBlock 0

/-- `const interval = rule.value;` (DragonList.tsx line 61). -/
def intervalOf (r : IntervalRule) : Nat := r.value

/-- `const rows = rule.beadRows || 6;` (DragonList.tsx line 62). -/
def rowsOf (r : IntervalRule) : Nat := jsOr r.beadRows 6

/-- `const threshold = rule.dragonThreshold || 3;` (DragonList.tsx line 76). -/
def thresholdOf (r : IntervalRule) : Nat := jsOr r.dragonThreshold 3

/-- `checkAlignment` (DragonList.tsx lines 64-70):
```
if (interval <= 1) return true;
if (epoch > 0) return height >= epoch && (height - epoch) % interval === 0;
return height % interval === 0;
```
All subtractions here are guarded (`height >= epoch`), so `Nat` arithmetic
coincides with the JavaScript arithmetic. -/
def checkAlignment (interval epoch h : Nat) : Bool :=
  if interval ≤ 1 then true
  else if 0 < epoch then decide (epoch ≤ h) && decide ((h - epoch) % interval = 0)
  else decide (h % interval = 0)

/-- Stable insertion of `a` into a list sorted descending by `key`;
`a` is placed before the first element whose key is `≤ key a`. -/
def insertDescBy {α : Type} (key : α → Nat) (a : α) : List α → List α
  | [] => [a]
  | x :: xs => if key x ≤ key a then a :: x :: xs else x :: insertDescBy key a xs

/-- Stable sort, descending by `key`.  Models the JavaScript stable
`array.sort((a, b) => key(b) - key(a))`. -/
def sortDescBy {α : Type} (key : α → Nat) : List α → List α
  | [] => []
  | x :: xs => insertDescBy key x (sortDescBy key xs)

/-- `const filtered = allBlocks.filter(b => checkAlignment(b.height))
      .sort((a, b) => b.height - a.height);` (DragonList.tsx line 73). -/
def filteredBlocks (rule : IntervalRule) (blocks : List BlockData) : List BlockData :=
  sortDescBy (fun b => b.height)
    (blocks.filter (fun b => checkAlignment (intervalOf rule) (epochOf rule) b.height))

/-- The alignment predicate exactly as the specification words it:
`interval ≤ 1` (every block matches); or `startOffset > 0` and
`height ≥ startOffset` and `(height − startOffset) mod interval = 0`; or
`startOffset = 0` and `height mod interval = 0`. -/
def alignSpec (rule : IntervalRule) (h : Nat) : Prop :=
  intervalOf rule ≤ 1 ∨
    (0 < epochOf rule ∧ epochOf rule ≤ h ∧ (h - epochOf rule) % intervalOf rule = 0) ∨
    (epochOf rule = 0 ∧ h % intervalOf rule = 0)

-- Streak calculator ---------------------------------------------------------

/-- The four raw result classes a streak can have (`'ODD' | 'EVEN' | 'BIG' |
'SMALL'`, the `rawType` field of `DragonInfo` in DragonList.tsx). -/
inductive RawType where
  | ODD
  | EVEN
  | BIG
  | SMALL
deriving DecidableEq, Repr

def BlockType.toRaw : BlockType → RawType
  | BlockType.ODD => RawType.ODD
  | BlockType.EVEN => RawType.EVEN

def SizeType.toRaw : SizeType → RawType
  | SizeType.BIG => RawType.BIG
  | SizeType.SMALL => RawType.SMALL

/-- The classification accessor `b['type']` of DragonList.tsx. -/
def parityKey (b : BlockData) : RawType := b.type.toRaw

/-- The classification accessor `b['sizeType']` of DragonList.tsx. -/
def sizeKey (b : BlockData) : RawType := b.sizeType.toRaw

/-- The loop body of `calculateStreak` (DragonList.tsx lines 81-89): given
the first element `b0` of the list `l`, count the leading elements of `l`
whose classification equals `key b0`, stopping at the first differing one. -/
def streakFrom (key : BlockData → RawType) (b0 : BlockData) (l : List BlockData) :
    RawType × Nat :=
  (key b0, (l.takeWhile (fun b => decide (key b = key b0))).length)

/-- `calculateStreak` (DragonList.tsx lines 81-89): `none` on the empty list
(the caller guarantees nonemptiness; `filtered[0]` would be `undefined`). -/
def calculateStreak (key : BlockData → RawType) : List BlockData → Option (RawType × Nat)
  | [] => none
  | b0 :: rest => some (streakFrom key b0 (b0 :: rest))

/-- Concrete data for the claim-1 witness: a rule sampling every 2 blocks
from offset 0 and three blocks of distinct heights. -/
def ruleA : IntervalRule :=
  { id := "a", label := "A", value := 2, startBlock := some 0, trendRows := 6,
    beadRows := some 6, dragonThreshold := none }

def mkBlock (h : Nat) (t : BlockType) (s : SizeType) : BlockData :=
  { height := h, hash := "h", resultValue := 0, type := t, sizeType := s,
    timestamp := "t" }

def blocksA : List BlockData :=
  [mkBlock 3 BlockType.ODD SizeType.BIG, mkBlock 4 BlockType.EVEN SizeType.SMALL,
   mkBlock 2 BlockType.EVEN SizeType.BIG]

/-- The parity sequence `[EVEN, EVEN, EVEN, ODD, EVEN]`, newest first, used
by the specification's streak-calculator example. -/
def exSeqC2 : List BlockData :=
  [mkBlock 5 BlockType.EVEN SizeType.BIG, mkBlock 4 BlockType.EVEN SizeType.SMALL,
   mkBlock 3 BlockType.EVEN SizeType.BIG, mkBlock 2 BlockType.ODD SizeType.SMALL,
   mkBlock 1 BlockType.EVEN SizeType.BIG]

-- Row partitioner -----------------------------------------------------------

/-- `Math.floor((b.height - epoch) / interval)` (DragonList.tsx line 120),
evaluated with JavaScript number semantics.  When `interval = 0` (reachable,
since `checkAlignment` admits every block when `interval ≤ 1`) the division
yields `NaN` or `±Infinity`, whose remainder is `NaN` and never equals a row
index; that is modelled by `none`.  Otherwise the result is the floor
division `Int.fdiv`. -/
def jsLogicalIdx (epoch interval h : Nat) : Option Int :=
  if interval = 0 then none
  else some (Int.fdiv ((h : Int) - (epoch : Int)) (interval : Int))

/-- `(logicalIdx % rows) === r` (DragonList.tsx line 121): the JS `%` on
possibly negative numbers is the truncated remainder `Int.tmod`. -/
def jsRowMatch (epoch interval rows r h : Nat) : Bool :=
  match jsLogicalIdx epoch interval h with
  | none => false
  | some idx => decide (Int.tmod idx (rows : Int) = (r : Int))

/-- `rowItems` (DragonList.tsx lines 119-122): the blocks of the rule's
filtered list that fall into row `r`. -/
def rowItemsOf (rule : IntervalRule) (blocks : List BlockData) (r : Nat) :
    List BlockData :=
  (filteredBlocks rule blocks).filter
    (fun b => jsRowMatch (epochOf rule) (intervalOf rule) (rowsOf rule) r b.height)

/-- The specification's row formula, read with mathematical floor division
and mathematical (nonnegative) modulus:
`floor((height − startOffset) / interval) mod N`. -/
def specRowZ (rule : IntervalRule) (h : Nat) : Int :=
  (Int.fdiv ((h : Int) - (epochOf rule : Int)) ((intervalOf rule : Nat) : Int)).emod
    ((rowsOf rule : Nat) : Int)

-- Pattern aggregator ---------------------------------------------------------

/-- The two classification dimensions (`'parity' | 'size'`). -/
inductive Dimension where
  | parity
  | size
deriving DecidableEq, Repr

/-- The two detection modes (`'trend' | 'bead'`): trend is the whole-sequence
(sequence) mode, bead is the per-row mode. -/
inductive Mode where
  | trend
  | bead
deriving DecidableEq, Repr

/-- `DragonFilter` (DragonList.tsx line 29). -/
inductive DragonFilter where
  | ALL
  | ODD
  | EVEN
  | BIG
  | SMALL
deriving DecidableEq, Repr

/-- The image of a raw class inside the filter type, used for the comparison
`info.rawType === activeFilter`. -/
def RawType.toFilter : RawType → DragonFilter
  | RawType.ODD => DragonFilter.ODD
  | RawType.EVEN => DragonFilter.EVEN
  | RawType.BIG => DragonFilter.BIG
  | RawType.SMALL => DragonFilter.SMALL

/-- `activeFilter === 'ALL' || info.rawType === activeFilter`
(DragonList.tsx lines 105 and 156). -/
def matchesFilter (f : DragonFilter) (raw : RawType) : Bool :=
  decide (f = DragonFilter.ALL) || decide (raw.toFilter = f)

/-- `FollowedPattern` (declared in `types.ts` of the repository; fields as
used in DragonList.tsx: `ruleId`, `type`, `mode`, optional `rowId`). -/
structure FollowedPattern where
  ruleId : String
  type : Dimension
  mode : Mode
  rowId : Option Nat
deriving DecidableEq, Repr

/-- `DragonInfo` (DragonList.tsx lines 15-27). -/
structure DragonInfo where
  ruleId : String
  ruleName : String
  type : Dimension
  mode : Mode
  value : String
  rawType : RawType
  count : Nat
  color : String
  threshold : Nat
  nextHeight : Nat
  rowId : Option Nat
deriving DecidableEq, Repr

/-- The display glyph (DragonList.tsx lines 98 and 148). -/
def displayValue (dim : Dimension) (v : RawType) : String :=
  match dim with
  | Dimension.parity => if v = RawType.ODD then "单" else "双"
  | Dimension.size => if v = RawType.BIG then "大" else "小"

/-- The display color (DragonList.tsx lines 100 and 150). -/
def displayColor (dim : Dimension) (v : RawType) : String :=
  if v = RawType.ODD ∨ v = RawType.BIG then
    (match dim with
      | Dimension.parity => "var(--color-odd)"
      | Dimension.size => "var(--color-big)")
  else
    (match dim with
      | Dimension.parity => "var(--color-even)"
      | Dimension.size => "var(--color-small)")

/-- The `DragonInfo` object built by `addTrendDragon` (DragonList.tsx
lines 91-103). -/
def mkTrendInfo (rule : IntervalRule) (dim : Dimension) (sv : RawType × Nat)
    (nextH : Nat) : DragonInfo :=
  { ruleId := rule.id, ruleName := rule.label, type := dim, mode := Mode.trend,
    value := displayValue dim sv.1, rawType := sv.1, count := sv.2,
    color := displayColor dim sv.1, threshold := thresholdOf rule,
    nextHeight := nextH, rowId := none }

/-- The `DragonInfo` object built by `addBeadDragon` (DragonList.tsx
lines 141-154); `rowId` is the 1-based row index `r + 1`. -/
def mkBeadInfo (rule : IntervalRule) (dim : Dimension) (sv : RawType × Nat)
    (nextH : Nat) (r : Nat) : DragonInfo :=
  { ruleId := rule.id, ruleName := rule.label, type := dim, mode := Mode.bead,
    value := displayValue dim sv.1, rawType := sv.1, count := sv.2,
    color := displayColor dim sv.1, threshold := thresholdOf rule,
    nextHeight := nextH, rowId := some (r + 1) }

/-- Structural concatenation-map (`flatMap`), kept local so concrete inputs
evaluate by kernel reduction. -/
def concatMap {α β : Type} (f : α → List β) : List α → List β
  | [] => []
  | x :: xs => f x ++ concatMap f xs

/-- The two sequence-mode observations a rule constructs (parity and size,
DragonList.tsx lines 114-115), before any threshold or filter gating.
Empty when the rule's filtered list is empty (line 74: `return`). -/
def trendObsList (rule : IntervalRule) (blocks : List BlockData) : List DragonInfo :=
  match filteredBlocks rule blocks with
  | [] => []
  | b0 :: rest =>
    [mkTrendInfo rule Dimension.parity (streakFrom parityKey b0 (b0 :: rest))
        (b0.height + intervalOf rule),
      mkTrendInfo rule Dimension.size (streakFrom sizeKey b0 (b0 :: rest))
        (b0.height + intervalOf rule)]

/-- The row-mode observations a rule constructs (DragonList.tsx lines
118-167): for every row `r` in `0 .. rows-1` with a nonempty `rowItems`,
a parity and a size observation with `rowId = r + 1` and predicted next
height `rowItems[0].height + interval * rows`, before any gating. -/
def beadObsList (rule : IntervalRule) (blocks : List BlockData) : List DragonInfo :=
  match filteredBlocks rule blocks with
  | [] => []
  | _ :: _ =>
    concatMap
      (fun r =>
        match rowItemsOf rule blocks r with
        | [] => []
        | rb0 :: rrest =>
          [mkBeadInfo rule Dimension.parity (streakFrom parityKey rb0 (rb0 :: rrest))
              (rb0.height + intervalOf rule * rowsOf rule) r,
            mkBeadInfo rule Dimension.size (streakFrom sizeKey rb0 (rb0 :: rrest))
              (rb0.height + intervalOf rule * rowsOf rule) r])
      (List.range (rowsOf rule))

/-- `followedPatterns.find(fp => fp.ruleId === rule.id && fp.type === type
&& fp.mode === 'trend')` (DragonList.tsx lines 108-110): note no `rowId`
comparison in trend mode. -/
def followedTrendB (fw : List FollowedPattern) (rule : IntervalRule)
    (d : DragonInfo) : Bool :=
  fw.any (fun fp => decide (fp.ruleId = rule.id) && decide (fp.type = d.type) &&
    decide (fp.mode = Mode.trend))

/-- `followedPatterns.find(fp => fp.ruleId === rule.id && fp.type === type
&& fp.mode === 'bead' && fp.rowId === (r + 1))` (DragonList.tsx lines
159-161); the observation carries `rowId = some (r + 1)`. -/
def followedBeadB (fw : List FollowedPattern) (rule : IntervalRule)
    (d : DragonInfo) : Bool :=
  fw.any (fun fp => decide (fp.ruleId = rule.id) && decide (fp.type = d.type) &&
    decide (fp.mode = Mode.bead) && decide (fp.rowId = d.rowId))

/-- The sequence-mode result list `trendDragons` (DragonList.tsx lines 52-175):
per rule, the constructed observations gated by
`streak.count >= threshold && matchesFilter`, then stably sorted by
descending streak count.  The `allBlocks.length === 0` early return is the
guard. -/
def trendDragons (f : DragonFilter) (rules : List IntervalRule)
    (blocks : List BlockData) : List DragonInfo :=
  if blocks = [] then []
  else
    sortDescBy (fun d => d.count)
      (concatMap
        (fun rule =>
          (trendObsList rule blocks).filter
            (fun d => decide (thresholdOf rule ≤ d.count) && matchesFilter f d.rawType))
        rules)

/-- The row-mode result list `beadRowDragons` (DragonList.tsx lines 52-175),
gated and sorted the same way. -/
def beadRowDragons (f : DragonFilter) (rules : List IntervalRule)
    (blocks : List BlockData) : List DragonInfo :=
  if blocks = [] then []
  else
    sortDescBy (fun d => d.count)
      (concatMap
        (fun rule =>
          (beadObsList rule blocks).filter
            (fun d => decide (thresholdOf rule ≤ d.count) && matchesFilter f d.rawType))
        rules)

/-- The watched result list `followedResults` (DragonList.tsx lines 52-175):
per rule, first the trend observations admitted by `isFollowed &&
matchesFilter`, then the bead observations admitted likewise (threshold
plays no part), then the whole list stably sorted by descending count. -/
def followedResults (f : DragonFilter) (fw : List FollowedPattern)
    (rules : List IntervalRule) (blocks : List BlockData) : List DragonInfo :=
  if blocks = [] then []
  else
    sortDescBy (fun d => d.count)
      (concatMap
        (fun rule =>
          (trendObsList rule blocks).filter
              (fun d => followedTrendB fw rule d && matchesFilter f d.rawType) ++
            (beadObsList rule blocks).filter
              (fun d => followedBeadB fw rule d && matchesFilter f d.rawType))
        rules)

/-- All sequence-mode candidate observations, ungated: the claim-side notion
of "observation" for the threshold/filter admission claims. -/
def trendCandidates (rules : List IntervalRule) (blocks : List BlockData) :
    List DragonInfo :=
  concatMap (fun rule => trendObsList rule blocks) rules

/-- All row-mode candidate observations, ungated. -/
def beadCandidates (rules : List IntervalRule) (blocks : List BlockData) :
    List DragonInfo :=
  concatMap (fun rule => beadObsList rule blocks) rules

/-- The claim-side watched-signature test: some followed pattern matches the
observation's rule, dimension and mode — and, in row mode, its 1-based row
index (sequence mode carries no row comparison in the source). -/
def watchedMatch (fw : List FollowedPattern) (d : DragonInfo) : Prop :=
  ∃ fp ∈ fw, fp.ruleId = d.ruleId ∧ fp.type = d.type ∧ fp.mode = d.mode ∧
    (d.mode = Mode.bead → fp.rowId = d.rowId)

/-- `[...trendDragons, ...beadRowDragons]` (DragonList.tsx line 181): the
observation set the Change-Detecting Tracker fingerprints and records. -/
def trackedObservations (f : DragonFilter) (rules : List IntervalRule)
    (blocks : List BlockData) : List DragonInfo :=
  trendDragons f rules blocks ++ beadRowDragons f rules blocks

-- Change-detecting tracker ---------------------------------------------------

def dimStr : Dimension → String
  | Dimension.parity => "parity"
  | Dimension.size => "size"

def modeStr : Mode → String
  | Mode.trend => "trend"
  | Mode.bead => "bead"

def rawStr : RawType → String
  | RawType.ODD => "ODD"
  | RawType.EVEN => "EVEN"
  | RawType.BIG => "BIG"
  | RawType.SMALL => "SMALL"

/-- `${d.rowId || ''}` — `undefined` and `0` both render as the empty
string; a bead observation's `rowId = r + 1` is never `0`. -/
def rowTag : Option Nat → String
  | none => ""
  | some n => if n = 0 then "" else toString n

/-- The canonical signature string
`${ruleId}|${type}|${mode}|${rowId || ''}|${rawType}|${count}`
(DragonList.tsx lines 182-184). -/
def sigOf (d : DragonInfo) : String :=
  d.ruleId ++ "|" ++ dimStr d.type ++ "|" ++ modeStr d.mode ++ "|" ++
    rowTag d.rowId ++ "|" ++ rawStr d.rawType ++ "|" ++ toString d.count

/-- The identity key omitting the length
`${ruleId}|${type}|${mode}|${rowId || ''}|${rawType}`
(DragonList.tsx line 193). -/
def keyOfDragon (d : DragonInfo) : String :=
  d.ruleId ++ "|" ++ dimStr d.type ++ "|" ++ modeStr d.mode ++ "|" ++
    rowTag d.rowId ++ "|" ++ rawStr d.rawType

/-- Lexicographic comparison of character lists by code point, modelling
the JavaScript string `<` used by `array.sort()` (all characters in the
signatures lie in the basic plane, where code-point order and UTF-16 order
agree). -/
def charListLt : List Char → List Char → Bool
  | [], [] => false
  | [], _ :: _ => true
  | _ :: _, [] => false
  | a :: as, b :: bs =>
    if a.toNat < b.toNat then true
    else if b.toNat < a.toNat then false
    else charListLt as bs

def strLtB (a b : String) : Bool := charListLt a.data b.data

/-- Stable ascending insertion for strings (JavaScript `array.sort()` on
strings is lexicographic and stable). -/
def insertAscStr (a : String) : List String → List String
  | [] => [a]
  | x :: xs => if strLtB x a then x :: insertAscStr a xs else a :: x :: xs

def sortAscStr : List String → List String
  | [] => []
  | x :: xs => insertAscStr x (sortAscStr xs)

/-- JavaScript `array.join(sep)`. -/
def joinSep (sep : String) : List String → String
  | [] => ""
  | [x] => x
  | x :: y :: xs => x ++ sep ++ joinSep sep (y :: xs)

/-- The fingerprint (DragonList.tsx lines 182-184): map each observation to
its signature, sort lexicographically, join with `;;`. -/
def fingerprintOf (ds : List DragonInfo) : String :=
  joinSep ";;" (sortAscStr (ds.map sigOf))

/-- `DragonStatRecord` (declared in `types.ts` of the repository; fields as
constructed in DragonList.tsx lines 206-216).  `streakLength` is the
record's maximum observed streak length. -/
structure DragonStatRecord where
  id : String
  timestamp : Nat
  ruleId : String
  ruleName : String
  type : Dimension
  mode : Mode
  rawType : RawType
  streakLength : Nat
  rowId : Option Nat
deriving DecidableEq, Repr

/-- The record identity key `${r.ruleId}|${r.type}|${r.mode}|${r.rowId ||
''}|${r.rawType}` (DragonList.tsx line 195). -/
def keyOfRecord (r : DragonStatRecord) : String :=
  r.ruleId ++ "|" ++ dimStr r.type ++ "|" ++ modeStr r.mode ++ "|" ++
    rowTag r.rowId ++ "|" ++ rawStr r.rawType

/-- The record created for a newly detected dragon (DragonList.tsx lines
206-216); `id` models the `Date.now()-random` string and `now` models
`Date.now()`. -/
def newRecord (id : String) (now : Nat) (d : DragonInfo) : DragonStatRecord :=
  { id := id, timestamp := now, ruleId := d.ruleId, ruleName := d.ruleName,
    type := d.type, mode := d.mode, rawType := d.rawType,
    streakLength := d.count, rowId := d.rowId }

/-- `updated.find(...)` followed by the in-place mutation (DragonList.tsx
lines 194-203): bump the FIRST record whose key matches — its length is
replaced and its timestamp set to `now` only when the observed count is
strictly larger.  `none` when no record matches. -/
def bumpFirst (key : String) (cnt now : Nat) :
    List DragonStatRecord → Option (List DragonStatRecord)
  | [] => none
  | r :: rs =>
    if keyOfRecord r = key then
      some ((if r.streakLength < cnt then
          { r with streakLength := cnt, timestamp := now } else r) :: rs)
    else
      match bumpFirst key cnt now rs with
      | none => none
      | some rs2 => some (r :: rs2)

/-- Processing of one observation inside the tracker's update loop
(DragonList.tsx lines 192-218): bump the existing record, or append a fresh
one. -/
def applyOne (id : String) (now : Nat) (recs : List DragonStatRecord)
    (d : DragonInfo) : List DragonStatRecord :=
  match bumpFirst (keyOfDragon d) d.count now recs with
  | some recs2 => recs2
  | none => recs ++ [newRecord id now d]

/-- The whole `for (const dragon of allDragons)` loop; `mkId idx` models the
fresh id generated for the `idx`-th observation. -/
def applyDragons (mkId : Nat → String) (now : Nat) :
    List DragonStatRecord → Nat → List DragonInfo → List DragonStatRecord
  | recs, _, [] => recs
  | recs, idx, d :: ds => applyDragons mkId now (applyOne (mkId idx) now recs d) (idx + 1) ds

/-- The tracker's state: the persistent record list (`dragonRecords`), the
previous fingerprint (`prevDragonsRef`), the `isTracking` flag, the
`isInitializedRef` flag, and the log of record lists handed to
`debouncedSaveDragonStats` (to observe save dispatches). -/
structure TrackerState where
  records : List DragonStatRecord
  prevFingerprint : String
  isTracking : Bool
  initialized : Bool
  savedPayloads : List (List DragonStatRecord)
deriving DecidableEq, Repr

/-- One run of the tracking effect (DragonList.tsx lines 178-224): do
nothing unless tracking and initialized; compute the fingerprint of the
observation set; if it equals the previous fingerprint do nothing;
otherwise store it, update the records and dispatch a save. -/
def trackStep (mkId : Nat → String) (now : Nat) (s : TrackerState)
    (dragons : List DragonInfo) : TrackerState :=
  if s.isTracking && s.initialized then
    if fingerprintOf dragons = s.prevFingerprint then s
    else
      { s with
        prevFingerprint := fingerprintOf dragons
        records := applyDragons mkId now s.records 0 dragons
        savedPayloads := s.savedPayloads ++ [applyDragons mkId now s.records 0 dragons] }
  else s

/-- `handleClearStats` (DragonList.tsx lines 271-276): synchronously empty
the record list and reset the previous fingerprint; the remote clear's
outcome (`ok`) is ignored. -/
def clearStats (s : TrackerState) (ok : Bool) : TrackerState :=
  { s with records := [], prevFingerprint := "" }

/-- `updated.find(r => key(r) === key)` as a lookup. -/
def lookupRec (recs : List DragonStatRecord) (k : String) : Option DragonStatRecord :=
  recs.find? (fun r => decide (keyOfRecord r = k))

/-- One input to the tracking effect: the id generator, the clock value and
the observation set of that evaluation. -/
structure StepInput where
  mkId : Nat → String
  now : Nat
  dragons : List DragonInfo

/-- A sequence of tracking-effect runs. -/
def runTrack (s : TrackerState) (steps : List StepInput) : TrackerState :=
  steps.foldl (fun st inp => trackStep inp.mkId inp.now st inp.dragons) s

-- Concrete data for exemplars, witnesses and counterexamples ---------------

/-- The specification's row-partitioner exemplar rule:
`rowCount = 2`, `interval = 1`, `startOffset = 0`. -/
def ruleC3 : IntervalRule :=
  { id := "c3", label := "C3", value := 1, startBlock := some 0, trendRows := 6,
    beadRows := some 2, dragonThreshold := none }

/-- Blocks of heights `[10, 9, 8, 7]` for the row-partitioner exemplar. -/
def blocksC3 : List BlockData :=
  [mkBlock 10 BlockType.ODD SizeType.BIG, mkBlock 9 BlockType.EVEN SizeType.SMALL,
   mkBlock 8 BlockType.ODD SizeType.BIG, mkBlock 7 BlockType.EVEN SizeType.SMALL]

/-- A rule with `interval = 1` and `startOffset = 5`: `checkAlignment`
admits every block (interval ≤ 1), including blocks below the offset. -/
def ruleX : IntervalRule :=
  { id := "x", label := "X", value := 1, startBlock := some 5, trendRows := 6,
    beadRows := some 2, dragonThreshold := none }

/-- A block whose height (4) lies below `ruleX`'s start offset (5). -/
def blkLow : BlockData := mkBlock 4 BlockType.ODD SizeType.BIG

/-- A rule sampling every block with six bead rows and default threshold. -/
def rule1 : IntervalRule :=
  { id := "r1", label := "R1", value := 1, startBlock := some 0, trendRows := 6,
    beadRows := some 6, dragonThreshold := none }

/-- Three all-ODD, all-BIG blocks: a parity streak ODD/3 and a size streak
BIG/3, both meeting the default threshold 3. -/
def blocks0 : List BlockData :=
  [mkBlock 3 BlockType.ODD SizeType.BIG, mkBlock 2 BlockType.ODD SizeType.BIG,
   mkBlock 1 BlockType.ODD SizeType.BIG]

/-- A persisted record for the tracker witnesses. -/
def rec0 : DragonStatRecord :=
  { id := "rec0", timestamp := 1, ruleId := "r1", ruleName := "R1",
    type := Dimension.parity, mode := Mode.trend, rawType := RawType.ODD,
    streakLength := 3, rowId := none }

/-- An observation with the same signature as `rec0` and a longer streak. -/
def dragon0 : DragonInfo :=
  { ruleId := "r1", ruleName := "R1", type := Dimension.parity,
    mode := Mode.trend, value := "单", rawType := RawType.ODD, count := 5,
    color := "var(--color-odd)", threshold := 3, nextHeight := 4, rowId := none }

/-- A tracker state holding `rec0`, tracking and initialized. -/
def state0 : TrackerState :=
  { records := [rec0], prevFingerprint := "", isTracking := true,
    initialized := true, savedPayloads := [] }

/-- A single tracking-effect run observing `dragon0`. -/
def steps0 : List StepInput :=
  [{ mkId := fun _ => "fresh", now := 7, dragons := [dragon0] }]

/-- A one-bead-row rule: every filtered block lands in row 0, so the bead
streak over `blocks0` reaches the threshold. -/
def ruleW : IntervalRule :=
  { id := "w", label := "W", value := 1, startBlock := some 0, trendRows := 6,
    beadRows := some 1, dragonThreshold := none }

/-- A followed pattern watching `ruleW`'s parity bead row 1. -/
def fw0 : List FollowedPattern :=
  [{ ruleId := "w", type := Dimension.parity, mode := Mode.bead, rowId := some 1 }]

-- Theorems ----------------------------------------------------------------


theorem perm_insertDescBy {α : Type} (key : α → Nat) (a : α) :
    ∀ l : List α, List.Perm (insertDescBy key a l) (a :: l) := by
  intro l
  induction l with
  | nil => exact List.Perm.refl _
  | cons x xs ih =>
    unfold insertDescBy
    split
    · exact List.Perm.refl _
    · exact (List.Perm.cons x ih).trans (List.Perm.swap a x xs)

theorem perm_sortDescBy {α : Type} (key : α → Nat) :
    ∀ l : List α, List.Perm (sortDescBy key l) l := by
  intro l
  induction l with
  | nil => exact List.Perm.refl _
  | cons x xs ih =>
    exact (perm_insertDescBy key x (sortDescBy key xs)).trans (List.Perm.cons x ih)

theorem mem_sortDescBy {α : Type} (key : α → Nat) (l : List α) (a : α) :
    a ∈ sortDescBy key l ↔ a ∈ l :=
  (perm_sortDescBy key l).mem_iff

theorem pairwise_insertDescBy {α : Type} (key : α → Nat) (a : α) (l : List α)
    (h : l.Pairwise (fun x y => key y ≤ key x)) :
    (insertDescBy key a l).Pairwise (fun x y => key y ≤ key x) := by
  induction l with
  | nil => simp [insertDescBy]
  | cons x xs ih =>
    rw [List.pairwise_cons] at h
    unfold insertDescBy
    split
    · rename_i hxa
      refine List.pairwise_cons.mpr ⟨?_, List.pairwise_cons.mpr h⟩
      intro b hb
      rcases List.mem_cons.mp hb with hbx | hbxs
      · subst hbx; exact hxa
      · exact le_trans (h.1 b hbxs) hxa
    · rename_i hxa
      refine List.pairwise_cons.mpr ⟨?_, ih h.2⟩
      intro b hb
      rcases List.mem_cons.mp ((perm_insertDescBy key a xs).mem_iff.mp hb) with hba | hbxs
      · subst hba; omega
      · exact h.1 b hbxs

theorem pairwise_sortDescBy {α : Type} (key : α → Nat) :
    ∀ l : List α, (sortDescBy key l).Pairwise (fun x y => key y ≤ key x) := by
  intro l
  induction l with
  | nil => simp [sortDescBy]
  | cons x xs ih => exact pairwise_insertDescBy key x _ ih

theorem checkAlignment_iff (rule : IntervalRule) (h : Nat) :
    checkAlignment (intervalOf rule) (epochOf rule) h = true ↔ alignSpec rule h := by
  unfold checkAlignment alignSpec
  split
  · rename_i h1
    simp [h1]
  · rename_i h1
    split
    · rename_i h2
      simp only [Bool.and_eq_true, decide_eq_true_eq]
      constructor
      · rintro ⟨ha, hb⟩
        exact Or.inr (Or.inl ⟨h2, ha, hb⟩)
      · rintro (hc | ⟨_, ha, hb⟩ | ⟨hz, _⟩)
        · exact absurd hc h1
        · exact ⟨ha, hb⟩
        · omega
    · rename_i h2
      simp only [decide_eq_true_eq]
      constructor
      · intro hm
        exact Or.inr (Or.inr ⟨by omega, hm⟩)
      · rintro (hc | ⟨hp, _, _⟩ | ⟨_, hm⟩)
        · exact absurd hc h1
        · exact absurd hp h2
        · exact hm

theorem mem_filteredBlocks (rule : IntervalRule) (blocks : List BlockData) (b : BlockData) :
    b ∈ filteredBlocks rule blocks ↔ b ∈ blocks ∧ alignSpec rule b.height := by
  unfold filteredBlocks
  rw [mem_sortDescBy, List.mem_filter, checkAlignment_iff]

/-- Claim C1: for every rule and every block, the Alignment Filter includes
the block if and only if `interval ≤ 1`, or `startOffset > 0` and
`height ≥ startOffset` and `(height − startOffset) mod interval = 0`, or
`startOffset = 0` and `height mod interval = 0`; and, provided block heights
are pairwise distinct (the spec expects heights unique), the resulting list
is ordered by strictly descending height (newest first). -/
theorem alignment_filter_correct (rule : IntervalRule) (blocks : List BlockData)
    (hnd : (blocks.map (fun b => b.height)).Nodup) :
    (∀ b : BlockData, b ∈ filteredBlocks rule blocks ↔ b ∈ blocks ∧ alignSpec rule b.height) ∧
      (filteredBlocks rule blocks).Pairwise (fun a b => b.height < a.height) := by
  constructor
  · exact fun b => mem_filteredBlocks rule blocks b
  · have hsorted :
        (filteredBlocks rule blocks).Pairwise (fun a b => b.height ≤ a.height) :=
      pairwise_sortDescBy (fun b : BlockData => b.height) _
    have hsub :
        (blocks.filter
          (fun b => checkAlignment (intervalOf rule) (epochOf rule) b.height)).Sublist blocks :=
      List.filter_sublist blocks
    have hnd2 :
        ((blocks.filter
          (fun b => checkAlignment (intervalOf rule) (epochOf rule) b.height)).map
            (fun b => b.height)).Nodup :=
      List.Nodup.sublist (List.Sublist.map _ hsub) hnd
    have hnd3 : ((filteredBlocks rule blocks).map (fun b => b.height)).Nodup := by
      have hperm := (perm_sortDescBy (fun b => b.height)
        (blocks.filter (fun b => checkAlignment (intervalOf rule) (epochOf rule) b.height)))
      exact ((hperm.map (fun b => b.height)).nodup_iff).mpr hnd2
    have hne : (filteredBlocks rule blocks).Pairwise (fun a b => a.height ≠ b.height) :=
      List.pairwise_map.mp hnd3
    exact (hsorted.and hne).imp (fun hab => lt_of_le_of_ne hab.1 (fun he => hab.2 he.symm))

/-- Witness for claim C1 at a concrete rule and block list. -/
theorem alignment_filter_correct_witness :
    (∀ b : BlockData, b ∈ filteredBlocks ruleA blocksA ↔
        b ∈ blocksA ∧ alignSpec ruleA b.height) ∧
      (filteredBlocks ruleA blocksA).Pairwise (fun a b => b.height < a.height) :=
  alignment_filter_correct ruleA blocksA (by decide)

theorem takeWhile_getD_spec {α : Type} (p : α → Bool) (d : α) :
    ∀ l : List α,
      (∀ i, i < (l.takeWhile p).length → p (l.getD i d) = true) ∧
        ((l.takeWhile p).length = l.length ∨
          ((l.takeWhile p).length < l.length ∧ p (l.getD (l.takeWhile p).length d) = false)) := by
  intro l
  induction l with
  | nil => simp
  | cons x xs ih =>
    by_cases hp : p x = true
    · rw [List.takeWhile_cons_of_pos hp]
      constructor
      · intro i hi
        cases i with
        | zero => simpa using hp
        | succ j =>
          simp only [List.length_cons, Nat.succ_lt_succ_iff] at hi
          simpa using ih.1 j hi
      · rcases ih.2 with hlen | ⟨hlt, hfail⟩
        · left; simp [hlen]
        · right
          refine ⟨by simpa using Nat.succ_lt_succ hlt, ?_⟩
          simpa using hfail
    · rw [List.takeWhile_cons_of_neg hp]
      refine ⟨by intro i hi; simp at hi, Or.inr ⟨by simp, ?_⟩⟩
      simpa using eq_false_of_ne_true hp

/-- Claim C2: on a non-empty newest-first sequence the Streak Calculator
returns the classification of the first (newest) element together with the
count of leading elements sharing that classification, stopping at the first
differing element; and on the parity sequence `[EVEN, EVEN, EVEN, ODD, EVEN]`
it returns `(EVEN, 3)`. -/
theorem streak_calculator_correct (key : BlockData → RawType) (l : List BlockData)
    (hl : l ≠ []) :
    (∃ b0 rest c n, l = b0 :: rest ∧ calculateStreak key l = some (c, n) ∧
        c = key b0 ∧ 1 ≤ n ∧
        (∀ i, i < n → key (l.getD i b0) = c) ∧
        (n = l.length ∨ (n < l.length ∧ key (l.getD n b0) ≠ c))) ∧
      calculateStreak parityKey exSeqC2 = some (RawType.EVEN, 3) := by
  constructor
  · match l, hl with
    | b0 :: rest, _ =>
      refine ⟨b0, rest, key b0,
        ((b0 :: rest).takeWhile (fun b => decide (key b = key b0))).length,
        rfl, rfl, rfl, ?_, ?_, ?_⟩
      · rw [List.takeWhile_cons_of_pos (by simp)]
        simp
      · intro i hi
        have := (takeWhile_getD_spec (fun b => decide (key b = key b0)) b0 (b0 :: rest)).1 i hi
        simpa using this
      · rcases (takeWhile_getD_spec (fun b => decide (key b = key b0)) b0 (b0 :: rest)).2 with
          hlen | ⟨hlt, hfail⟩
        · left; exact hlen
        · right
          refine ⟨hlt, ?_⟩
          simpa using hfail
  · decide

/-- Witness for claim C2 at the concrete example sequence. -/
theorem streak_calculator_correct_witness :
    (∃ b0 rest c n, exSeqC2 = b0 :: rest ∧
        calculateStreak parityKey exSeqC2 = some (c, n) ∧
        c = parityKey b0 ∧ 1 ≤ n ∧
        (∀ i, i < n → parityKey (exSeqC2.getD i b0) = c) ∧
        (n = exSeqC2.length ∨ (n < exSeqC2.length ∧ parityKey (exSeqC2.getD n b0) ≠ c))) ∧
      calculateStreak parityKey exSeqC2 = some (RawType.EVEN, 3) :=
  streak_calculator_correct parityKey exSeqC2 (by decide)

theorem rowsOf_pos (rule : IntervalRule) : 1 ≤ rowsOf rule := by
  unfold rowsOf
  rcases rule.beadRows with _ | n
  · simp [jsOr]
  · cases n
    · simp [jsOr]
    · simp [jsOr]

theorem mem_concatMap {α β : Type} (f : α → List β) (l : List α) (b : β) :
    b ∈ concatMap f l ↔ ∃ a ∈ l, b ∈ f a := by
  induction l with
  | nil => simp [concatMap]
  | cons x xs ih => simp [concatMap, ih]

theorem mem_rowItemsOf (rule : IntervalRule) (blocks : List BlockData) (r : Nat)
    (b : BlockData) :
    b ∈ rowItemsOf rule blocks r ↔
      b ∈ filteredBlocks rule blocks ∧
        jsRowMatch (epochOf rule) (intervalOf rule) (rowsOf rule) r b.height = true := by
  unfold rowItemsOf
  exact List.mem_filter

theorem jsRowMatch_iff_specRow (rule : IntervalRule) (r h : Nat)
    (hi : 1 ≤ intervalOf rule) (he : epochOf rule ≤ h) :
    jsRowMatch (epochOf rule) (intervalOf rule) (rowsOf rule) r h = true ↔
      specRowZ rule h = (r : Int) := by
  have hiz : intervalOf rule ≠ 0 := by omega
  unfold jsRowMatch jsLogicalIdx specRowZ
  simp only [if_neg hiz]
  have hXnn : 0 ≤ Int.fdiv ((h : Int) - (epochOf rule : Int)) ((intervalOf rule : Nat) : Int) :=
    Int.fdiv_nonneg (by omega) (by omega)
  rw [Int.tmod_eq_emod hXnn (by omega)]
  simp only [decide_eq_true_eq]
  constructor
  · intro hx; exact hx
  · intro hx; exact hx

theorem mem_trendObsList (rule : IntervalRule) (blocks : List BlockData)
    (d : DragonInfo) :
    d ∈ trendObsList rule blocks ↔
      ∃ b0 rest, filteredBlocks rule blocks = b0 :: rest ∧
        (d = mkTrendInfo rule Dimension.parity (streakFrom parityKey b0 (b0 :: rest))
            (b0.height + intervalOf rule) ∨
          d = mkTrendInfo rule Dimension.size (streakFrom sizeKey b0 (b0 :: rest))
            (b0.height + intervalOf rule)) := by
  unfold trendObsList
  cases hfb : filteredBlocks rule blocks with
  | nil =>
    simp only [List.not_mem_nil, false_iff]
    rintro ⟨b0, rest, hcontra, -⟩
    exact absurd hcontra (by simp [hfb])
  | cons b0 rest =>
    constructor
    · intro hd
      rcases List.mem_cons.mp hd with h1 | h2
      · exact ⟨b0, rest, rfl, Or.inl h1⟩
      · exact ⟨b0, rest, rfl, Or.inr (by simpa using h2)⟩
    · rintro ⟨b1, rest1, heq, hd⟩
      obtain ⟨rfl, rfl⟩ : b0 = b1 ∧ rest = rest1 := by
        have := heq
        simp only [List.cons.injEq] at this
        exact this
      rcases hd with h1 | h2
      · exact List.mem_cons.mpr (Or.inl h1)
      · exact List.mem_cons.mpr (Or.inr (by simp [h2]))

theorem mem_beadObsList (rule : IntervalRule) (blocks : List BlockData)
    (d : DragonInfo) :
    d ∈ beadObsList rule blocks ↔
      ∃ r, r < rowsOf rule ∧ ∃ b0 rest, rowItemsOf rule blocks r = b0 :: rest ∧
        (d = mkBeadInfo rule Dimension.parity (streakFrom parityKey b0 (b0 :: rest))
            (b0.height + intervalOf rule * rowsOf rule) r ∨
          d = mkBeadInfo rule Dimension.size (streakFrom sizeKey b0 (b0 :: rest))
            (b0.height + intervalOf rule * rowsOf rule) r) := by
  unfold beadObsList
  cases hfb : filteredBlocks rule blocks with
  | nil =>
    simp only [List.not_mem_nil, false_iff]
    rintro ⟨r, -, b0, rest, hrow, -⟩
    have : b0 ∈ rowItemsOf rule blocks r := by simp [hrow]
    have hbf : b0 ∈ filteredBlocks rule blocks := ((mem_rowItemsOf rule blocks r b0).mp this).1
    rw [hfb] at hbf
    exact absurd hbf (List.not_mem_nil b0)
  | cons c cs =>
    rw [mem_concatMap]
    constructor
    · rintro ⟨r, hr, hd⟩
      refine ⟨r, List.mem_range.mp hr, ?_⟩
      revert hd
      cases hrow : rowItemsOf rule blocks r with
      | nil => intro hd; exact absurd hd (List.not_mem_nil d)
      | cons b0 rest =>
        intro hd
        refine ⟨b0, rest, rfl, ?_⟩
        rcases List.mem_cons.mp hd with h1 | h2
        · exact Or.inl h1
        · exact Or.inr (by simpa using h2)
    · rintro ⟨r, hr, b0, rest, hrow, hd⟩
      refine ⟨r, List.mem_range.mpr hr, ?_⟩
      rw [hrow]
      rcases hd with h1 | h2
      · exact List.mem_cons.mpr (Or.inl h1)
      · exact List.mem_cons.mpr (Or.inr (by simp [h2]))

/-- Claim C3, counterexample to the claim as stated: under the rule
`interval = 1, startOffset = 5, rowCount = 2`, the block of height 4 is
filtered in (interval ≤ 1 admits every block), the claim's formula
`floor((height − startOffset)/interval) mod N` — read with mathematical
(nonnegative) mod — yields row 1, yet the code assigns the block to no row
at all: its JS remainder `(-1) % 2` is `-1`, which never equals a row
index. -/
theorem row_partitioner_claim_counterexample :
    blkLow ∈ filteredBlocks ruleX [blkLow] ∧
      specRowZ ruleX blkLow.height = 1 ∧
      rowItemsOf ruleX [blkLow] 0 = [] ∧
      rowItemsOf ruleX [blkLow] 1 = [] := by
  refine ⟨by decide, by decide, by decide, by decide⟩

/-- Claim C3, amended: provided every block height is at least the rule's
start offset (automatic except in the `interval ≤ 1` corner exposed by the
counterexample), a filtered block belongs to row `r` exactly when
`floor((height − startOffset)/interval) mod N = r`; rows preserve the
overall newest-first order; a row with zero blocks contributes no
observation; the predicted next qualifying height of a row is the row's
newest block height plus `interval × N`; and the `rowCount = 2,
interval = 1, startOffset = 0` exemplar on heights `[10, 9, 8, 7]` assigns
10→row 0, 9→row 1, 8→row 0, 7→row 1. -/
theorem row_partitioner_amended (rule : IntervalRule) (blocks : List BlockData)
    (hi : 1 ≤ intervalOf rule)
    (hb : ∀ b ∈ blocks, epochOf rule ≤ b.height) :
    (∀ r : Nat, ∀ b : BlockData,
        b ∈ rowItemsOf rule blocks r ↔
          b ∈ filteredBlocks rule blocks ∧ specRowZ rule b.height = (r : Int)) ∧
      (∀ r : Nat, (rowItemsOf rule blocks r).Sublist (filteredBlocks rule blocks)) ∧
      (∀ r : Nat, rowItemsOf rule blocks r = [] →
        ∀ d ∈ beadObsList rule blocks, d.rowId ≠ some (r + 1)) ∧
      (∀ d ∈ beadObsList rule blocks, ∃ r, r < rowsOf rule ∧ d.rowId = some (r + 1) ∧
        ∃ b0 rest, rowItemsOf rule blocks r = b0 :: rest ∧
          d.nextHeight = b0.height + intervalOf rule * rowsOf rule) ∧
      (rowItemsOf ruleC3 blocksC3 0 =
          [mkBlock 10 BlockType.ODD SizeType.BIG, mkBlock 8 BlockType.ODD SizeType.BIG] ∧
        rowItemsOf ruleC3 blocksC3 1 =
          [mkBlock 9 BlockType.EVEN SizeType.SMALL, mkBlock 7 BlockType.EVEN SizeType.SMALL]) := by
  refine ⟨?_, ?_, ?_, ?_, by decide, by decide⟩
  · intro r b
    rw [mem_rowItemsOf]
    constructor
    · rintro ⟨hbf, hmatch⟩
      have hbb : b ∈ blocks := ((mem_filteredBlocks rule blocks b).mp hbf).1
      exact ⟨hbf, (jsRowMatch_iff_specRow rule r b.height hi (hb b hbb)).mp hmatch⟩
    · rintro ⟨hbf, hspec⟩
      have hbb : b ∈ blocks := ((mem_filteredBlocks rule blocks b).mp hbf).1
      exact ⟨hbf, (jsRowMatch_iff_specRow rule r b.height hi (hb b hbb)).mpr hspec⟩
  · intro r
    exact List.filter_sublist _
  · intro r hempty d hd hrowid
    rcases (mem_beadObsList rule blocks d).mp hd with ⟨r2, hr2, b0, rest, hrow, hcase⟩
    have hdrow : d.rowId = some (r2 + 1) := by
      rcases hcase with h1 | h1 <;> simp [h1, mkBeadInfo]
    rw [hdrow] at hrowid
    have : r2 = r := by
      have := Option.some.inj hrowid
      omega
    subst this
    rw [hempty] at hrow
    exact absurd hrow (by simp)
  · intro d hd
    rcases (mem_beadObsList rule blocks d).mp hd with ⟨r, hr, b0, rest, hrow, hcase⟩
    refine ⟨r, hr, ?_, b0, rest, hrow, ?_⟩
    · rcases hcase with h1 | h1 <;> simp [h1, mkBeadInfo]
    · rcases hcase with h1 | h1 <;> simp [h1, mkBeadInfo]

/-- Witness for the amended claim C3 at the exemplar rule and blocks. -/
theorem row_partitioner_amended_witness :
    (∀ r : Nat, ∀ b : BlockData,
        b ∈ rowItemsOf ruleC3 blocksC3 r ↔
          b ∈ filteredBlocks ruleC3 blocksC3 ∧ specRowZ ruleC3 b.height = (r : Int)) ∧
      (∀ r : Nat, (rowItemsOf ruleC3 blocksC3 r).Sublist (filteredBlocks ruleC3 blocksC3)) ∧
      (∀ r : Nat, rowItemsOf ruleC3 blocksC3 r = [] →
        ∀ d ∈ beadObsList ruleC3 blocksC3, d.rowId ≠ some (r + 1)) ∧
      (∀ d ∈ beadObsList ruleC3 blocksC3, ∃ r, r < rowsOf ruleC3 ∧ d.rowId = some (r + 1) ∧
        ∃ b0 rest, rowItemsOf ruleC3 blocksC3 r = b0 :: rest ∧
          d.nextHeight = b0.height + intervalOf ruleC3 * rowsOf ruleC3) ∧
      (rowItemsOf ruleC3 blocksC3 0 =
          [mkBlock 10 BlockType.ODD SizeType.BIG, mkBlock 8 BlockType.ODD SizeType.BIG] ∧
        rowItemsOf ruleC3 blocksC3 1 =
          [mkBlock 9 BlockType.EVEN SizeType.SMALL, mkBlock 7 BlockType.EVEN SizeType.SMALL]) :=
  row_partitioner_amended ruleC3 blocksC3 (by decide) (by decide)

theorem trendObs_fields (rule : IntervalRule) (blocks : List BlockData)
    (d : DragonInfo) (hd : d ∈ trendObsList rule blocks) :
    d.ruleId = rule.id ∧ d.mode = Mode.trend ∧ d.threshold = thresholdOf rule ∧
      d.rowId = none := by
  rcases (mem_trendObsList rule blocks d).mp hd with ⟨b0, rest, -, hcase⟩
  rcases hcase with h1 | h1 <;> simp [h1, mkTrendInfo]

theorem beadObs_fields (rule : IntervalRule) (blocks : List BlockData)
    (d : DragonInfo) (hd : d ∈ beadObsList rule blocks) :
    d.ruleId = rule.id ∧ d.mode = Mode.bead ∧ d.threshold = thresholdOf rule ∧
      ∃ r, r < rowsOf rule ∧ d.rowId = some (r + 1) := by
  rcases (mem_beadObsList rule blocks d).mp hd with ⟨r, hr, b0, rest, -, hcase⟩
  rcases hcase with h1 | h1 <;>
    exact ⟨by simp [h1, mkBeadInfo], by simp [h1, mkBeadInfo],
      by simp [h1, mkBeadInfo], r, hr, by simp [h1, mkBeadInfo]⟩

theorem trendObsList_nil (rule : IntervalRule) : trendObsList rule [] = [] := rfl

theorem beadObsList_nil (rule : IntervalRule) : beadObsList rule [] = [] := rfl

theorem mem_trendCandidates (rules : List IntervalRule) (blocks : List BlockData)
    (d : DragonInfo) :
    d ∈ trendCandidates rules blocks ↔ ∃ rule ∈ rules, d ∈ trendObsList rule blocks :=
  mem_concatMap _ rules d

theorem mem_beadCandidates (rules : List IntervalRule) (blocks : List BlockData)
    (d : DragonInfo) :
    d ∈ beadCandidates rules blocks ↔ ∃ rule ∈ rules, d ∈ beadObsList rule blocks :=
  mem_concatMap _ rules d

theorem mem_trendDragons_iff (f : DragonFilter) (rules : List IntervalRule)
    (blocks : List BlockData) (d : DragonInfo) :
    d ∈ trendDragons f rules blocks ↔
      d ∈ trendCandidates rules blocks ∧ d.threshold ≤ d.count ∧
        matchesFilter f d.rawType = true := by
  unfold trendDragons
  split
  · rename_i hb
    subst hb
    simp only [List.not_mem_nil, false_iff]
    rintro ⟨hc, -, -⟩
    rcases (mem_trendCandidates rules [] d).mp hc with ⟨rule, -, hmem⟩
    rw [trendObsList_nil] at hmem
    exact absurd hmem (List.not_mem_nil d)
  · rw [mem_sortDescBy, mem_concatMap]
    constructor
    · rintro ⟨rule, hrule, hd⟩
      rcases List.mem_filter.mp hd with ⟨hmem, hgate⟩
      simp only [Bool.and_eq_true] at hgate
      obtain ⟨hth, hmf⟩ := hgate
      have hfields := trendObs_fields rule blocks d hmem
      refine ⟨(mem_trendCandidates rules blocks d).mpr ⟨rule, hrule, hmem⟩, ?_, hmf⟩
      rw [hfields.2.2.1]
      exact of_decide_eq_true hth
    · rintro ⟨hc, hth, hmf⟩
      rcases (mem_trendCandidates rules blocks d).mp hc with ⟨rule, hrule, hmem⟩
      have hfields := trendObs_fields rule blocks d hmem
      refine ⟨rule, hrule, List.mem_filter.mpr ⟨hmem, ?_⟩⟩
      rw [Bool.and_eq_true]
      refine ⟨decide_eq_true ?_, hmf⟩
      rw [← hfields.2.2.1]
      exact hth

theorem mem_beadDragons_iff (f : DragonFilter) (rules : List IntervalRule)
    (blocks : List BlockData) (d : DragonInfo) :
    d ∈ beadRowDragons f rules blocks ↔
      d ∈ beadCandidates rules blocks ∧ d.threshold ≤ d.count ∧
        matchesFilter f d.rawType = true := by
  unfold beadRowDragons
  split
  · rename_i hb
    subst hb
    simp only [List.not_mem_nil, false_iff]
    rintro ⟨hc, -, -⟩
    rcases (mem_beadCandidates rules [] d).mp hc with ⟨rule, -, hmem⟩
    rw [beadObsList_nil] at hmem
    exact absurd hmem (List.not_mem_nil d)
  · rw [mem_sortDescBy, mem_concatMap]
    constructor
    · rintro ⟨rule, hrule, hd⟩
      rcases List.mem_filter.mp hd with ⟨hmem, hgate⟩
      simp only [Bool.and_eq_true] at hgate
      obtain ⟨hth, hmf⟩ := hgate
      have hfields := beadObs_fields rule blocks d hmem
      refine ⟨(mem_beadCandidates rules blocks d).mpr ⟨rule, hrule, hmem⟩, ?_, hmf⟩
      rw [hfields.2.2.1]
      exact of_decide_eq_true hth
    · rintro ⟨hc, hth, hmf⟩
      rcases (mem_beadCandidates rules blocks d).mp hc with ⟨rule, hrule, hmem⟩
      have hfields := beadObs_fields rule blocks d hmem
      refine ⟨rule, hrule, List.mem_filter.mpr ⟨hmem, ?_⟩⟩
      rw [Bool.and_eq_true]
      refine ⟨decide_eq_true ?_, hmf⟩
      rw [← hfields.2.2.1]
      exact hth

theorem followedTrendB_iff (fw : List FollowedPattern) (rule : IntervalRule)
    (d : DragonInfo) (hrid : d.ruleId = rule.id) (hm : d.mode = Mode.trend) :
    followedTrendB fw rule d = true ↔ watchedMatch fw d := by
  unfold followedTrendB watchedMatch
  rw [List.any_eq_true]
  constructor
  · rintro ⟨fp, hfp, hp⟩
    simp only [Bool.and_eq_true, decide_eq_true_eq] at hp
    refine ⟨fp, hfp, ?_, hp.1.2, ?_, ?_⟩
    · rw [hrid]; exact hp.1.1
    · rw [hm]; exact hp.2
    · intro hmb
      rw [hm] at hmb
      exact absurd hmb (by decide)
  · rintro ⟨fp, hfp, h1, h2, h3, -⟩
    refine ⟨fp, hfp, ?_⟩
    simp only [Bool.and_eq_true, decide_eq_true_eq]
    refine ⟨⟨?_, h2⟩, ?_⟩
    · rw [← hrid]; exact h1
    · rw [← hm]; exact h3

theorem followedBeadB_iff (fw : List FollowedPattern) (rule : IntervalRule)
    (d : DragonInfo) (hrid : d.ruleId = rule.id) (hm : d.mode = Mode.bead) :
    followedBeadB fw rule d = true ↔ watchedMatch fw d := by
  unfold followedBeadB watchedMatch
  rw [List.any_eq_true]
  constructor
  · rintro ⟨fp, hfp, hp⟩
    simp only [Bool.and_eq_true, decide_eq_true_eq] at hp
    refine ⟨fp, hfp, ?_, hp.1.1.2, ?_, fun _ => hp.2⟩
    · rw [hrid]; exact hp.1.1.1
    · rw [hm]; exact hp.1.2
  · rintro ⟨fp, hfp, h1, h2, h3, h4⟩
    refine ⟨fp, hfp, ?_⟩
    simp only [Bool.and_eq_true, decide_eq_true_eq]
    refine ⟨⟨⟨?_, h2⟩, ?_⟩, h4 hm⟩
    · rw [← hrid]; exact h1
    · rw [← hm]; exact h3

theorem mem_followedResults_iff (f : DragonFilter) (fw : List FollowedPattern)
    (rules : List IntervalRule) (blocks : List BlockData) (d : DragonInfo) :
    d ∈ followedResults f fw rules blocks ↔
      (d ∈ trendCandidates rules blocks ∨ d ∈ beadCandidates rules blocks) ∧
        watchedMatch fw d ∧ matchesFilter f d.rawType = true := by
  unfold followedResults
  split
  · rename_i hb
    subst hb
    simp only [List.not_mem_nil, false_iff]
    rintro ⟨hc, -, -⟩
    rcases hc with hc | hc
    · rcases (mem_trendCandidates rules [] d).mp hc with ⟨rule, -, hmem⟩
      rw [trendObsList_nil] at hmem
      exact absurd hmem (List.not_mem_nil d)
    · rcases (mem_beadCandidates rules [] d).mp hc with ⟨rule, -, hmem⟩
      rw [beadObsList_nil] at hmem
      exact absurd hmem (List.not_mem_nil d)
  · rw [mem_sortDescBy, mem_concatMap]
    constructor
    · rintro ⟨rule, hrule, hd⟩
      rcases List.mem_append.mp hd with hside | hside
      · rcases List.mem_filter.mp hside with ⟨hmem, hgate⟩
        simp only [Bool.and_eq_true] at hgate
        obtain ⟨hfol, hmf⟩ := hgate
        have hfields := trendObs_fields rule blocks d hmem
        exact ⟨Or.inl ((mem_trendCandidates rules blocks d).mpr ⟨rule, hrule, hmem⟩),
          (followedTrendB_iff fw rule d hfields.1 hfields.2.1).mp hfol, hmf⟩
      · rcases List.mem_filter.mp hside with ⟨hmem, hgate⟩
        simp only [Bool.and_eq_true] at hgate
        obtain ⟨hfol, hmf⟩ := hgate
        have hfields := beadObs_fields rule blocks d hmem
        exact ⟨Or.inr ((mem_beadCandidates rules blocks d).mpr ⟨rule, hrule, hmem⟩),
          (followedBeadB_iff fw rule d hfields.1 hfields.2.1).mp hfol, hmf⟩
    · rintro ⟨hc, hw, hmf⟩
      rcases hc with hc | hc
      · rcases (mem_trendCandidates rules blocks d).mp hc with ⟨rule, hrule, hmem⟩
        have hfields := trendObs_fields rule blocks d hmem
        refine ⟨rule, hrule, List.mem_append.mpr (Or.inl (List.mem_filter.mpr
          ⟨hmem, ?_⟩))⟩
        rw [Bool.and_eq_true]
        exact ⟨(followedTrendB_iff fw rule d hfields.1 hfields.2.1).mpr hw, hmf⟩
      · rcases (mem_beadCandidates rules blocks d).mp hc with ⟨rule, hrule, hmem⟩
        have hfields := beadObs_fields rule blocks d hmem
        refine ⟨rule, hrule, List.mem_append.mpr (Or.inr (List.mem_filter.mpr
          ⟨hmem, ?_⟩))⟩
        rw [Bool.and_eq_true]
        exact ⟨(followedBeadB_iff fw rule d hfields.1 hfields.2.1).mpr hw, hmf⟩

/-- Claim C4: for every rule, dimension and mode, an observation is emitted
into the main sequence-mode (resp. row-mode) result list if and only if it
is a candidate observation whose streak length reaches its rule's threshold
and which passes the active class filter (a show-all filter always passes,
otherwise the observation's class must equal the filter); and a copy is
emitted into the watched result list if and only if its signature is in the
watched-pattern set and it passes the filter, independently of the
threshold. -/
theorem aggregator_admission (f : DragonFilter) (fw : List FollowedPattern)
    (rules : List IntervalRule) (blocks : List BlockData) :
    (∀ d : DragonInfo, d ∈ trendDragons f rules blocks ↔
        d ∈ trendCandidates rules blocks ∧ d.threshold ≤ d.count ∧
          matchesFilter f d.rawType = true) ∧
      (∀ d : DragonInfo, d ∈ beadRowDragons f rules blocks ↔
        d ∈ beadCandidates rules blocks ∧ d.threshold ≤ d.count ∧
          matchesFilter f d.rawType = true) ∧
      (∀ d : DragonInfo, d ∈ followedResults f fw rules blocks ↔
        (d ∈ trendCandidates rules blocks ∨ d ∈ beadCandidates rules blocks) ∧
          watchedMatch fw d ∧ matchesFilter f d.rawType = true) :=
  ⟨fun d => mem_trendDragons_iff f rules blocks d,
    fun d => mem_beadDragons_iff f rules blocks d,
    fun d => mem_followedResults_iff f fw rules blocks d⟩

/-- Claim C5, counterexample to the claim as stated: with one rule and an
all-ODD, all-BIG block set, the observation set the tracker fingerprints
contains two observations under the show-all filter but is empty under the
EVEN filter, and the two fingerprints differ — so the tracked observation
set is NOT the same for every display-filter value. -/
theorem tracker_filter_independence_counterexample :
    trackedObservations DragonFilter.ALL [rule1] blocks0 ≠
        trackedObservations DragonFilter.EVEN [rule1] blocks0 ∧
      fingerprintOf (trackedObservations DragonFilter.ALL [rule1] blocks0) ≠
        fingerprintOf (trackedObservations DragonFilter.EVEN [rule1] blocks0) :=
  ⟨by decide, by decide⟩

/-- Claim C5, amended: the Change-Detecting Tracker fingerprints the union
of the threshold-AND-filter-gated sequence-mode and row-mode result lists,
so the observation set it fingerprints and records varies with the active
display filter: an observation is tracked exactly when it is a candidate
whose streak length reaches its rule's threshold and whose class passes the
active filter. -/
theorem tracker_observes_gated_lists (f : DragonFilter)
    (rules : List IntervalRule) (blocks : List BlockData) :
    ∀ d : DragonInfo, d ∈ trackedObservations f rules blocks ↔
      (d ∈ trendCandidates rules blocks ∨ d ∈ beadCandidates rules blocks) ∧
        d.threshold ≤ d.count ∧ matchesFilter f d.rawType = true := by
  intro d
  unfold trackedObservations
  rw [List.mem_append, mem_trendDragons_iff, mem_beadDragons_iff]
  constructor
  · rintro (⟨hc, hth, hmf⟩ | ⟨hc, hth, hmf⟩)
    · exact ⟨Or.inl hc, hth, hmf⟩
    · exact ⟨Or.inr hc, hth, hmf⟩
  · rintro ⟨hc | hc, hth, hmf⟩
    · exact Or.inl ⟨hc, hth, hmf⟩
    · exact Or.inr ⟨hc, hth, hmf⟩

/-- Claim C6: running the Change-Detecting Tracker a second time on an
identical observation set is a no-op — the fingerprint stored by the first
run equals the one recomputed by the second, so the state (records,
fingerprint, and the log of dispatched saves) is unchanged, whatever clock
value or id generator the second run uses. -/
theorem tracker_idempotent (mkId1 mkId2 : Nat → String) (t1 t2 : Nat)
    (s : TrackerState) (d : List DragonInfo) :
    trackStep mkId2 t2 (trackStep mkId1 t1 s d) d = trackStep mkId1 t1 s d := by
  unfold trackStep
  by_cases hg : (s.isTracking && s.initialized) = true
  · rw [if_pos hg]
    by_cases hfp : fingerprintOf d = s.prevFingerprint
    · rw [if_pos hfp, if_pos hg, if_pos hfp]
    · rw [if_neg hfp]
      simp
  · rw [if_neg hg, if_neg hg]

theorem keyOfRecord_bump (r : DragonStatRecord) (cnt now : Nat) :
    keyOfRecord { r with streakLength := cnt, timestamp := now } = keyOfRecord r := rfl

theorem bumpFirst_lookup_self (k : String) (cnt now : Nat) :
    ∀ recs re, lookupRec recs k = some re →
      ∃ recs2, bumpFirst k cnt now recs = some recs2 ∧
        lookupRec recs2 k = some (if re.streakLength < cnt then
          { re with streakLength := cnt, timestamp := now } else re) := by
  intro recs
  induction recs with
  | nil => intro re h; simp [lookupRec] at h
  | cons r rs ih =>
    intro re h
    by_cases hk : keyOfRecord r = k
    · have hre : re = r := by
        unfold lookupRec at h
        rw [List.find?_cons_of_pos _ (by simpa using hk)] at h
        exact (Option.some.inj h).symm
      subst hre
      refine ⟨(if re.streakLength < cnt then
          { re with streakLength := cnt, timestamp := now } else re) :: rs, ?_, ?_⟩
      · unfold bumpFirst
        rw [if_pos hk]
      · unfold lookupRec
        rw [List.find?_cons_of_pos]
        by_cases hc : re.streakLength < cnt
        · rw [if_pos hc, keyOfRecord_bump]
          simpa using hk
        · rw [if_neg hc]
          simpa using hk
    · have hre2 : lookupRec rs k = some re := by
        unfold lookupRec at h ⊢
        rwa [List.find?_cons_of_neg _ (by simpa using hk)] at h
      rcases ih re hre2 with ⟨rs2, hbump, hlook⟩
      refine ⟨r :: rs2, ?_, ?_⟩
      · unfold bumpFirst
        rw [if_neg hk, hbump]
      · unfold lookupRec at hlook ⊢
        rw [List.find?_cons_of_neg _ (by simpa using hk)]
        exact hlook

theorem bumpFirst_lookup_mono (k : String) (cnt now : Nat) (k' : String) :
    ∀ recs recs2 r', bumpFirst k cnt now recs = some recs2 →
      lookupRec recs k' = some r' →
      ∃ r'', lookupRec recs2 k' = some r'' ∧ r'.streakLength ≤ r''.streakLength := by
  intro recs
  induction recs with
  | nil => intro recs2 r' hb; simp [bumpFirst] at hb
  | cons r rs ih =>
    intro recs2 r' hb h
    unfold bumpFirst at hb
    by_cases hk : keyOfRecord r = k
    · rw [if_pos hk] at hb
      obtain rfl := (Option.some.inj hb).symm
      by_cases hk' : keyOfRecord r = k'
      · have hre : r' = r := by
          unfold lookupRec at h
          rw [List.find?_cons_of_pos _ (by simpa using hk')] at h
          exact (Option.some.inj h).symm
        subst hre
        refine ⟨if r'.streakLength < cnt then
            { r' with streakLength := cnt, timestamp := now } else r', ?_, ?_⟩
        · unfold lookupRec
          rw [List.find?_cons_of_pos]
          by_cases hc : r'.streakLength < cnt
          · rw [if_pos hc, keyOfRecord_bump]
            simpa using hk'
          · rw [if_neg hc]
            simpa using hk'
        · by_cases hc : r'.streakLength < cnt
          · rw [if_pos hc]
            simp
            omega
          · rw [if_neg hc]
      · have hre2 : lookupRec rs k' = some r' := by
          unfold lookupRec at h ⊢
          rwa [List.find?_cons_of_neg _ (by simpa using hk')] at h
        refine ⟨r', ?_, le_refl _⟩
        unfold lookupRec
        rw [List.find?_cons_of_neg]
        · exact hre2
        · by_cases hc : r.streakLength < cnt
          · rw [if_pos hc, keyOfRecord_bump]
            simpa using hk'
          · rw [if_neg hc]
            simpa using hk'
    · rw [if_neg hk] at hb
      cases hbr : bumpFirst k cnt now rs with
      | none => rw [hbr] at hb; simp at hb
      | some rs2 =>
        rw [hbr] at hb
        obtain rfl := (Option.some.inj hb).symm
        by_cases hk' : keyOfRecord r = k'
        · have hre : r' = r := by
            unfold lookupRec at h
            rw [List.find?_cons_of_pos _ (by simpa using hk')] at h
            exact (Option.some.inj h).symm
          subst hre
          refine ⟨r', ?_, le_refl _⟩
          unfold lookupRec
          rw [List.find?_cons_of_pos _ (by simpa using hk')]
        · have hre2 : lookupRec rs k' = some r' := by
            unfold lookupRec at h ⊢
            rwa [List.find?_cons_of_neg _ (by simpa using hk')] at h
          rcases ih rs2 r' hbr hre2 with ⟨r'', h2, hle⟩
          refine ⟨r'', ?_, hle⟩
          unfold lookupRec at h2 ⊢
          rw [List.find?_cons_of_neg _ (by simpa using hk')]
          exact h2

theorem bumpFirst_none_of_lookup_none (k : String) (cnt now : Nat) :
    ∀ recs, lookupRec recs k = none → bumpFirst k cnt now recs = none := by
  intro recs
  induction recs with
  | nil => intro h; rfl
  | cons r rs ih =>
    intro h
    by_cases hk : keyOfRecord r = k
    · unfold lookupRec at h
      rw [List.find?_cons_of_pos _ (by simpa using hk)] at h
      exact absurd h (by simp)
    · have h2 : lookupRec rs k = none := by
        unfold lookupRec at h ⊢
        rwa [List.find?_cons_of_neg _ (by simpa using hk)] at h
      unfold bumpFirst
      rw [if_neg hk, ih h2]

theorem applyOne_lookup_mono (id : String) (now : Nat) (recs : List DragonStatRecord)
    (d : DragonInfo) (k' : String) (r' : DragonStatRecord)
    (h : lookupRec recs k' = some r') :
    ∃ r'', lookupRec (applyOne id now recs d) k' = some r'' ∧
      r'.streakLength ≤ r''.streakLength := by
  unfold applyOne
  cases hb : bumpFirst (keyOfDragon d) d.count now recs with
  | some recs2 => exact bumpFirst_lookup_mono (keyOfDragon d) d.count now k' recs recs2 r' hb h
  | none =>
    refine ⟨r', ?_, le_refl _⟩
    unfold lookupRec at h ⊢
    rw [List.find?_append, h]
    rfl

theorem applyDragons_lookup_mono (mkId : Nat → String) (now : Nat) :
    ∀ (ds : List DragonInfo) (recs : List DragonStatRecord) (idx : Nat)
      (k' : String) (r' : DragonStatRecord),
      lookupRec recs k' = some r' →
      ∃ r'', lookupRec (applyDragons mkId now recs idx ds) k' = some r'' ∧
        r'.streakLength ≤ r''.streakLength := by
  intro ds
  induction ds with
  | nil => intro recs idx k' r' h; exact ⟨r', h, le_refl _⟩
  | cons d ds ih =>
    intro recs idx k' r' h
    rcases applyOne_lookup_mono (mkId idx) now recs d k' r' h with ⟨r1, h1, hle1⟩
    rcases ih (applyOne (mkId idx) now recs d) (idx + 1) k' r1 h1 with ⟨r2, h2, hle2⟩
    exact ⟨r2, h2, le_trans hle1 hle2⟩

theorem trackStep_lookup_mono (mkId : Nat → String) (now : Nat) (s : TrackerState)
    (dragons : List DragonInfo) (k' : String) (r' : DragonStatRecord)
    (h : lookupRec s.records k' = some r') :
    ∃ r'', lookupRec (trackStep mkId now s dragons).records k' = some r'' ∧
      r'.streakLength ≤ r''.streakLength := by
  unfold trackStep
  by_cases hg : (s.isTracking && s.initialized) = true
  · rw [if_pos hg]
    by_cases hfp : fingerprintOf dragons = s.prevFingerprint
    · rw [if_pos hfp]
      exact ⟨r', h, le_refl _⟩
    · rw [if_neg hfp]
      simpa using applyDragons_lookup_mono mkId now dragons s.records 0 k' r' h
  · rw [if_neg hg]
    exact ⟨r', h, le_refl _⟩

theorem runTrack_lookup_mono (steps : List StepInput) :
    ∀ (s : TrackerState) (k' : String) (r' : DragonStatRecord),
      lookupRec s.records k' = some r' →
      ∃ r'', lookupRec (runTrack s steps).records k' = some r'' ∧
        r'.streakLength ≤ r''.streakLength := by
  induction steps with
  | nil => intro s k' r' h; exact ⟨r', h, le_refl _⟩
  | cons st steps ih =>
    intro s k' r' h
    rcases trackStep_lookup_mono st.mkId st.now s st.dragons k' r' h with ⟨r1, h1, hle1⟩
    rcases ih (trackStep st.mkId st.now s st.dragons) k' r1 h1 with ⟨r2, h2, hle2⟩
    exact ⟨r2, h2, le_trans hle1 hle2⟩

/-- Claim C7: for every record signature, across any sequence of tracker
updates the record's maximum streak length never decreases; processing one
observation replaces an existing record exactly by
`if existing < observed then bump length and timestamp else leave alone`
(so the length is replaced only by a strictly larger observed length, with
a timestamp bump exactly in that case); and a record is created — appended
with the observed length as its initial maximum — precisely when no record
with that signature exists. -/
theorem record_monotonicity (s : TrackerState) (steps : List StepInput)
    (k : String) (r : DragonStatRecord) (h : lookupRec s.records k = some r) :
    (∃ r', lookupRec (runTrack s steps).records k = some r' ∧
        r.streakLength ≤ r'.streakLength) ∧
      (∀ (recs : List DragonStatRecord) (d : DragonInfo) (id : String) (now : Nat)
        (re : DragonStatRecord), lookupRec recs (keyOfDragon d) = some re →
        lookupRec (applyOne id now recs d) (keyOfDragon d) =
          some (if re.streakLength < d.count then
            { re with streakLength := d.count, timestamp := now } else re)) ∧
      (∀ (recs : List DragonStatRecord) (d : DragonInfo) (id : String) (now : Nat),
        lookupRec recs (keyOfDragon d) = none →
        applyOne id now recs d = recs ++ [newRecord id now d] ∧
          (newRecord id now d).streakLength = d.count) := by
  refine ⟨runTrack_lookup_mono steps s k r h, ?_, ?_⟩
  · intro recs d id now re hre
    rcases bumpFirst_lookup_self (keyOfDragon d) d.count now recs re hre with
      ⟨recs2, hb, hl⟩
    unfold applyOne
    rw [hb]
    exact hl
  · intro recs d id now hnone
    constructor
    · unfold applyOne
      rw [bumpFirst_none_of_lookup_none (keyOfDragon d) d.count now recs hnone]
    · rfl

/-- Witness for claim C7 at a concrete state holding one record of length 3
whose signature is observed again with length 5. -/
theorem record_monotonicity_witness :
    (∃ r', lookupRec (runTrack state0 steps0).records (keyOfRecord rec0) = some r' ∧
        rec0.streakLength ≤ r'.streakLength) ∧
      lookupRec (applyOne "fresh" 7 [rec0] dragon0) (keyOfDragon dragon0) =
        some (if rec0.streakLength < dragon0.count then
          { rec0 with streakLength := dragon0.count, timestamp := 7 } else rec0) ∧
      (applyOne "fresh" 7 [] dragon0 = [] ++ [newRecord "fresh" 7 dragon0] ∧
        (newRecord "fresh" 7 dragon0).streakLength = dragon0.count) :=
  ⟨(record_monotonicity state0 steps0 (keyOfRecord rec0) rec0 (by decide)).1,
    (record_monotonicity state0 steps0 (keyOfRecord rec0) rec0 (by decide)).2.1
      [rec0] dragon0 "fresh" 7 rec0 (by decide),
    (record_monotonicity state0 steps0 (keyOfRecord rec0) rec0 (by decide)).2.2
      [] dragon0 "fresh" 7 (by decide)⟩

theorem sigOf_length_pos (d : DragonInfo) : 0 < (sigOf d).length := by
  unfold sigOf
  simp only [String.length_append]
  have h1 : ("|" : String).length = 1 := rfl
  simp only [h1]
  omega

theorem perm_insertAscStr (a : String) :
    ∀ l : List String, List.Perm (insertAscStr a l) (a :: l) := by
  intro l
  induction l with
  | nil => exact List.Perm.refl _
  | cons x xs ih =>
    unfold insertAscStr
    split
    · exact (List.Perm.cons x ih).trans (List.Perm.swap a x xs)
    · exact List.Perm.refl _

theorem perm_sortAscStr : ∀ l : List String, List.Perm (sortAscStr l) l := by
  intro l
  induction l with
  | nil => exact List.Perm.refl _
  | cons x xs ih =>
    exact (perm_insertAscStr x (sortAscStr xs)).trans (List.Perm.cons x ih)

theorem joinSep_length_le (sep x : String) (xs : List String) :
    x.length ≤ (joinSep sep (x :: xs)).length := by
  cases xs with
  | nil => simp [joinSep]
  | cons y ys =>
    unfold joinSep
    simp only [String.length_append]
    omega

theorem fingerprintOf_ne_empty (ds : List DragonInfo) (h : ds ≠ []) :
    fingerprintOf ds ≠ "" := by
  unfold fingerprintOf
  have hperm := perm_sortAscStr (ds.map sigOf)
  have hne : sortAscStr (ds.map sigOf) ≠ [] := by
    intro hcontra
    rw [hcontra] at hperm
    have hlen := hperm.length_eq
    simp only [List.length_nil, List.length_map] at hlen
    exact h (List.length_eq_zero.mp hlen.symm)
  obtain ⟨x, xs, hx⟩ := List.exists_cons_of_ne_nil hne
  rw [hx]
  have hxmem : x ∈ ds.map sigOf := by
    apply hperm.mem_iff.mp
    rw [hx]
    exact List.mem_cons_self x xs
  obtain ⟨d0, -, rfl⟩ := List.mem_map.mp hxmem
  intro hcontra
  have hlen := joinSep_length_le ";;" (sigOf d0) xs
  rw [hcontra] at hlen
  have h0 : ("" : String).length = 0 := rfl
  rw [h0] at hlen
  have := sigOf_length_pos d0
  omega

theorem bumpFirst_mem (k : String) (cnt now : Nat) :
    ∀ recs recs2 re, bumpFirst k cnt now recs = some recs2 → re ∈ recs2 →
      re ∈ recs ∨ ∃ r0 ∈ recs, re = { r0 with streakLength := cnt, timestamp := now } := by
  intro recs
  induction recs with
  | nil => intro recs2 re hb; simp [bumpFirst] at hb
  | cons r rs ih =>
    intro recs2 re hb hmem
    unfold bumpFirst at hb
    by_cases hk : keyOfRecord r = k
    · rw [if_pos hk] at hb
      obtain rfl := (Option.some.inj hb).symm
      rcases List.mem_cons.mp hmem with h1 | h1
      · by_cases hc : r.streakLength < cnt
        · rw [if_pos hc] at h1
          exact Or.inr ⟨r, List.mem_cons_self r rs, h1⟩
        · rw [if_neg hc] at h1
          exact Or.inl (h1 ▸ List.mem_cons_self r rs)
      · exact Or.inl (List.mem_cons_of_mem r h1)
    · rw [if_neg hk] at hb
      cases hbr : bumpFirst k cnt now rs with
      | none => rw [hbr] at hb; simp at hb
      | some rs2 =>
        rw [hbr] at hb
        obtain rfl := (Option.some.inj hb).symm
        rcases List.mem_cons.mp hmem with h1 | h1
        · exact Or.inl (h1 ▸ List.mem_cons_self r rs)
        · rcases ih rs2 re hbr h1 with h2 | ⟨r0, hr0, h2⟩
          · exact Or.inl (List.mem_cons_of_mem r h2)
          · exact Or.inr ⟨r0, List.mem_cons_of_mem r hr0, h2⟩

theorem applyDragons_fresh (mkId : Nat → String) (now : Nat) (D : List DragonInfo) :
    ∀ (ds : List DragonInfo) (recs : List DragonStatRecord) (idx : Nat),
      (∀ dd ∈ ds, dd ∈ D) →
      (∀ re ∈ recs, re.timestamp = now ∧ ∃ dd ∈ D, re.streakLength = dd.count) →
      ∀ re ∈ applyDragons mkId now recs idx ds,
        re.timestamp = now ∧ ∃ dd ∈ D, re.streakLength = dd.count := by
  intro ds
  induction ds with
  | nil => intro recs idx _ hrecs re hre; exact hrecs re hre
  | cons d ds ih =>
    intro recs idx hds hrecs re hre
    have hdD : d ∈ D := hds d (List.mem_cons_self d ds)
    refine ih (applyOne (mkId idx) now recs d) (idx + 1)
      (fun dd hdd => hds dd (List.mem_cons_of_mem d hdd)) ?_ re hre
    intro re2 hre2
    unfold applyOne at hre2
    revert hre2
    cases hb : bumpFirst (keyOfDragon d) d.count now recs with
    | some recs2 =>
      intro hre2
      rcases bumpFirst_mem (keyOfDragon d) d.count now recs recs2 re2 hb hre2 with
        h1 | ⟨r0, -, h1⟩
      · exact hrecs re2 h1
      · subst h1
        exact ⟨rfl, d, hdD, rfl⟩
    | none =>
      intro hre2
      rcases List.mem_append.mp hre2 with h1 | h1
      · exact hrecs re2 h1
      · have : re2 = newRecord (mkId idx) now d := by simpa using h1
        subst this
        exact ⟨rfl, d, hdD, rfl⟩

/-- Claim C8: the clear operation synchronously empties the local record
list and resets the previous fingerprint to the initial value, and its
result is independent of the remote clear's outcome; consequently the next
tracking run on a non-empty observation set is not short-circuited (its
fingerprint differs from the reset one) and rebuilds the records from the
empty list — every resulting record is freshly created (timestamp is the
current clock, length is an observed length), not merged with cleared
records. -/
theorem clear_resets (s : TrackerState) (ok : Bool) (mkId : Nat → String)
    (now : Nat) (d : List DragonInfo) (ht : s.isTracking = true)
    (hin : s.initialized = true) (hd : d ≠ []) :
    (clearStats s ok).records = [] ∧
      (clearStats s ok).prevFingerprint = "" ∧
      clearStats s ok = clearStats s (!ok) ∧
      (trackStep mkId now (clearStats s ok) d).records = applyDragons mkId now [] 0 d ∧
      (∀ re ∈ (trackStep mkId now (clearStats s ok) d).records,
        re.timestamp = now ∧ ∃ dd ∈ d, re.streakLength = dd.count) := by
  have hstep : (trackStep mkId now (clearStats s ok) d).records =
      applyDragons mkId now [] 0 d := by
    unfold trackStep clearStats
    rw [if_pos (by simp [ht, hin])]
    rw [if_neg (by simpa using fingerprintOf_ne_empty d hd)]
  refine ⟨rfl, rfl, rfl, hstep, ?_⟩
  rw [hstep]
  exact applyDragons_fresh mkId now d d [] 0 (fun dd hdd => hdd) (by simp)

/-- Witness for claim C8 at a concrete tracking state and a one-element
observation set. -/
theorem clear_resets_witness :
    (clearStats state0 true).records = [] ∧
      (clearStats state0 true).prevFingerprint = "" ∧
      clearStats state0 true = clearStats state0 (!true) ∧
      (trackStep (fun _ => "fresh") 7 (clearStats state0 true) [dragon0]).records =
        applyDragons (fun _ => "fresh") 7 [] 0 [dragon0] ∧
      (∀ re ∈ (trackStep (fun _ => "fresh") 7 (clearStats state0 true) [dragon0]).records,
        re.timestamp = 7 ∧ ∃ dd ∈ [dragon0], re.streakLength = dd.count) :=
  clear_resets state0 true (fun _ => "fresh") 7 [dragon0] (by decide) (by decide)
    (by decide)

/-- Claim C9: the engine substitutes fixed defaults for omitted or zero
fields: a start offset that is absent or `0` yields epoch `0`; a bead row
count that is absent or `0` yields `6` rows; and the streak threshold —
read from a `dragonThreshold` field that the `IntervalRule` interface of
`types.ts` does not declare at all — defaults to `3`, so every rule
carrying only the declared fields (`dragonThreshold = none`) gets
threshold `3`, as does an explicit `0`. -/
theorem rule_defaults (r : IntervalRule) :
    epochOf { r with startBlock := none } = 0 ∧
      epochOf { r with startBlock := some 0 } = 0 ∧
      rowsOf { r with beadRows := none } = 6 ∧
      rowsOf { r with beadRows := some 0 } = 6 ∧
      (∀ r2 : IntervalRule, thresholdOf { r2 with dragonThreshold := none } = 3) ∧
      thresholdOf { r with dragonThreshold := some 0 } = 3 :=
  ⟨rfl, rfl, rfl, rfl, fun _ => rfl, rfl⟩

/-- Claim C10: every emitted row-mode observation carries a 1-based row
index — a block row `r` (with `r < N`) is reported as `rowId = r + 1`, so
`rowId` lies in `[1, N]` and is never `0` nor absent; the watched-pattern
admission for a row-mode observation requires a followed pattern whose
`rowId` equals that `r + 1`; sequence-mode observations carry no `rowId`
and contribute the empty string to the signature (hence fingerprint) keys. -/
theorem row_ids_one_based (f : DragonFilter) (fw : List FollowedPattern)
    (rules : List IntervalRule) (blocks : List BlockData) :
    (∀ d ∈ beadRowDragons f rules blocks, ∃ rule ∈ rules, d.ruleId = rule.id ∧
        ∃ r, r < rowsOf rule ∧ d.rowId = some (r + 1)) ∧
      (∀ d ∈ trendDragons f rules blocks, d.rowId = none ∧ rowTag d.rowId = "") ∧
      (∀ d ∈ followedResults f fw rules blocks, d.mode = Mode.bead →
        ∃ fp ∈ fw, fp.ruleId = d.ruleId ∧ fp.type = d.type ∧ fp.mode = Mode.bead ∧
          fp.rowId = d.rowId) ∧
      (∀ d ∈ trendDragons f rules blocks,
        sigOf d = d.ruleId ++ "|" ++ dimStr d.type ++ "|" ++ "trend" ++ "|" ++ "" ++
          "|" ++ rawStr d.rawType ++ "|" ++ toString d.count) := by
  refine ⟨?_, ?_, ?_, ?_⟩
  · intro d hd
    rcases (mem_beadDragons_iff f rules blocks d).mp hd with ⟨hc, -, -⟩
    rcases (mem_beadCandidates rules blocks d).mp hc with ⟨rule, hrule, hmem⟩
    have hf := beadObs_fields rule blocks d hmem
    exact ⟨rule, hrule, hf.1, hf.2.2.2⟩
  · intro d hd
    rcases (mem_trendDragons_iff f rules blocks d).mp hd with ⟨hc, -, -⟩
    rcases (mem_trendCandidates rules blocks d).mp hc with ⟨rule, hrule, hmem⟩
    have hf := trendObs_fields rule blocks d hmem
    exact ⟨hf.2.2.2, by rw [hf.2.2.2]; rfl⟩
  · intro d hd hmode
    rcases (mem_followedResults_iff f fw rules blocks d).mp hd with ⟨-, hw, -⟩
    rcases hw with ⟨fp, hfp, h1, h2, h3, h4⟩
    exact ⟨fp, hfp, h1, h2, by rw [h3, hmode], h4 hmode⟩
  · intro d hd
    rcases (mem_trendDragons_iff f rules blocks d).mp hd with ⟨hc, -, -⟩
    rcases (mem_trendCandidates rules blocks d).mp hc with ⟨rule, hrule, hmem⟩
    have hf := trendObs_fields rule blocks d hmem
    unfold sigOf
    rw [hf.2.1, hf.2.2.2]
    rfl

/-- Witness for claim C10: a concrete row-mode observation of `ruleW`
emitted with `rowId = 1`, and its watched-pattern admission. -/
theorem row_ids_one_based_witness :
    (∃ rule ∈ [ruleW],
        (mkBeadInfo ruleW Dimension.parity (RawType.ODD, 3) 4 0).ruleId = rule.id ∧
          ∃ r, r < rowsOf rule ∧
            (mkBeadInfo ruleW Dimension.parity (RawType.ODD, 3) 4 0).rowId = some (r + 1)) ∧
      (∃ fp ∈ fw0,
        fp.ruleId = (mkBeadInfo ruleW Dimension.parity (RawType.ODD, 3) 4 0).ruleId ∧
          fp.type = (mkBeadInfo ruleW Dimension.parity (RawType.ODD, 3) 4 0).type ∧
          fp.mode = Mode.bead ∧
          fp.rowId = (mkBeadInfo ruleW Dimension.parity (RawType.ODD, 3) 4 0).rowId) :=
  ⟨(row_ids_one_based DragonFilter.ALL fw0 [ruleW] blocks0).1
      (mkBeadInfo ruleW Dimension.parity (RawType.ODD, 3) 4 0) (by decide),
    (row_ids_one_based DragonFilter.ALL fw0 [ruleW] blocks0).2.2.1
      (mkBeadInfo ruleW Dimension.parity (RawType.ODD, 3) 4 0) (by decide) (by decide)⟩

end TronDragon
